import Mathlib

/-!
Shallow embedding of `src/route.py`: a random-topology generator
(`create_random_topology`, built on networkx `gnm_random_graph`), a
concealment pass (`apply_anonymous_routing`), an annotation pass
(`mark_anonymous_routes`) and a restoration pass (`restore_topology`).

Graphs are undirected: a `Graph` carries its node list, its edge list
(tuples whose unordered identity is taken through `ekey`), and the
`hidden` attribute maps networkx stores on nodes and edges. Randomness
(`random.sample`, the edge-drawing loop of `gnm_random_graph`) is
modelled by passing the drawn list as an explicit parameter constrained
by `isSample` / `isGnmSample`, which state exactly the guarantees the
library documents for those draws. Python's `ValueError` (raised by
`random.sample` on an out-of-range count) is mapped to
`Err.invalidArgument`, and `KeyError` (raised by attribute access on a
missing node or edge) to `Err.notFound`. The `hide_ratio` float is
modelled as an exact rational; Python's `int(...)` truncation toward
zero is `pyInt`.
-/

/-- Error kinds observable from the Python code: `Err.invalidArgument`
stands for `ValueError`, `Err.notFound` for `KeyError`. -/
inductive Err where
  | invalidArgument
  | notFound
  deriving DecidableEq

instance {ε α : Type} [DecidableEq ε] [DecidableEq α] : DecidableEq (Except ε α) := fun a b =>
  match a, b with
  | .error e, .error f => if h : e = f then .isTrue (by rw [h]) else .isFalse (by simp [h])
  | .ok x, .ok y => if h : x = y then .isTrue (by rw [h]) else .isFalse (by simp [h])
  | .error _, .ok _ => .isFalse (by simp)
  | .ok _, .error _ => .isFalse (by simp)

/-- An undirected edge is reported by networkx as an ordered pair of node
identifiers; its identity is the unordered pair. -/
abbrev Edge := ℕ × ℕ

/-- Canonical form of an undirected edge: endpoints sorted. Two tuples
denote the same undirected edge iff their `ekey`s are equal. -/
def ekey (e : Edge) : Edge := if e.1 ≤ e.2 then e else (e.2, e.1)

/-- Membership of an undirected edge in an edge list, up to orientation
(this is how networkx adjacency lookup behaves). -/
def edgeIn (e : Edge) (l : List Edge) : Prop := ∃ f ∈ l, ekey f = ekey e

instance (e : Edge) (l : List Edge) : Decidable (edgeIn e l) :=
  inferInstanceAs (Decidable (∃ f ∈ l, ekey f = ekey e))

/-- A networkx-style undirected graph: node list, edge list, and the
`hidden` attribute maps on nodes and on (canonicalised) edges.
Attribute assignment conses onto the map; lookup takes the first
matching entry, so a later assignment shadows an earlier one. -/
structure Graph where
  nodes : List ℕ
  edges : List Edge
  nodeAttrs : List (ℕ × Bool)
  edgeAttrs : List (Edge × Bool)
  deriving DecidableEq

/-- First-match lookup in an attribute map. -/
def lookupA {α : Type} [DecidableEq α] (l : List (α × Bool)) (k : α) : Option Bool :=
  (l.find? (fun p => p.1 == k)).map (fun p => p.2)

/-- The node carries attribute `hidden = True`. -/
def nodeHidden (G : Graph) (n : ℕ) : Prop := lookupA G.nodeAttrs n = some true

/-- The edge carries attribute `hidden = True` (orientation-independent). -/
def edgeHidden (G : Graph) (e : Edge) : Prop := lookupA G.edgeAttrs (ekey e) = some true

instance (G : Graph) (n : ℕ) : Decidable (nodeHidden G n) :=
  inferInstanceAs (Decidable (lookupA G.nodeAttrs n = some true))

instance (G : Graph) (e : Edge) : Decidable (edgeHidden G e) :=
  inferInstanceAs (Decidable (lookupA G.edgeAttrs (ekey e) = some true))

/-- networkx `G.copy()`: graphs are values in this embedding, so a deep
copy is the graph itself. -/
def Graph.copy (G : Graph) : Graph := G

/-- Basic well-formedness every graph built by networkx satisfies:
duplicate-free node list, edge endpoints present among the nodes, no
self-loops. -/
def WF (G : Graph) : Prop :=
  G.nodes.Nodup ∧ ∀ e ∈ G.edges, e.1 ∈ G.nodes ∧ e.2 ∈ G.nodes ∧ e.1 ≠ e.2

instance (G : Graph) : Decidable (WF G) :=
  inferInstanceAs
    (Decidable (G.nodes.Nodup ∧ ∀ e ∈ G.edges, e.1 ∈ G.nodes ∧ e.2 ∈ G.nodes ∧ e.1 ≠ e.2))

/-- networkx removal of one node: drops the node, its attribute entry,
and every incident edge with its attribute entry; an absent node is left
as a silent no-op (`remove_nodes_from` ignores missing nodes). -/
def removeNode (G : Graph) (n : ℕ) : Graph where
  nodes := G.nodes.filter (fun x => decide (x ≠ n))
  edges := G.edges.filter (fun e => decide (e.1 ≠ n ∧ e.2 ≠ n))
  nodeAttrs := G.nodeAttrs.filter (fun p => decide (p.1 ≠ n))
  edgeAttrs := G.edgeAttrs.filter (fun p => decide (p.1.1 ≠ n ∧ p.1.2 ≠ n))

/-- networkx `G.remove_nodes_from(ns)`: removes the listed nodes in order. -/
def remove_nodes_from : Graph → List ℕ → Graph
  | G, [] => G
  | G, n :: ns => remove_nodes_from (removeNode G n) ns

/-- networkx removal of one undirected edge, matching either orientation,
together with its attribute entry; an absent edge is a silent no-op
(`remove_edges_from` ignores missing edges). -/
def removeEdge (G : Graph) (e : Edge) : Graph where
  nodes := G.nodes
  edges := G.edges.filter (fun f => decide (ekey f ≠ ekey e))
  nodeAttrs := G.nodeAttrs
  edgeAttrs := G.edgeAttrs.filter (fun p => decide (p.1 ≠ ekey e))

/-- networkx `G.remove_edges_from(es)`: removes the listed edges in order. -/
def remove_edges_from : Graph → List Edge → Graph
  | G, [] => G
  | G, e :: es => remove_edges_from (removeEdge G e) es

/-- networkx addition of one node: appended if absent, no-op if present
(no attribute data is supplied anywhere in `route.py`). -/
def addNode (G : Graph) (n : ℕ) : Graph :=
  if n ∈ G.nodes then G else { G with nodes := G.nodes ++ [n] }

/-- networkx `G.add_nodes_from(ns)`. -/
def add_nodes_from : Graph → List ℕ → Graph
  | G, [] => G
  | G, n :: ns => add_nodes_from (addNode G n) ns

/-- networkx addition of one edge: both endpoints are first ensured
present (which leaves the edge list untouched), then the undirected edge
is appended unless either orientation of it already exists (an existing
edge keeps its attributes, since the supplied attribute dict is empty).
Because node insertion does not change the edge list, the adjacency test
is equivalently read off the original edge list. -/
def addEdge (G : Graph) (e : Edge) : Graph :=
  if edgeIn e G.edges then addNode (addNode G e.1) e.2
  else { addNode (addNode G e.1) e.2 with
         edges := (addNode (addNode G e.1) e.2).edges ++ [e] }

/-- networkx `G.add_edges_from(es)`. -/
def add_edges_from : Graph → List Edge → Graph
  | G, [] => G
  | G, e :: es => add_edges_from (addEdge G e) es

/-- Python `int(q)` applied to a rational: truncation toward zero. -/
def pyInt (q : ℚ) : ℤ := if 0 ≤ q then ⌊q⌋ else ⌈q⌉

/-- Guarantee `random.sample(pop, k)` gives when it returns: `k` items,
drawn at distinct positions (hence a duplicate-free list, the populations
used in `route.py` being duplicate-free networkx node/edge lists), all
taken from the population. -/
def isSample {α : Type} (s pop : List α) (k : ℕ) : Prop :=
  s.length = k ∧ s.Nodup ∧ ∀ x ∈ s, x ∈ pop

/-- Guarantee of the edge-drawing loop inside networkx `gnm_random_graph`
(sampling branch): `m` drawn tuples, endpoints below `n`, no self-loop,
no two tuples denoting the same undirected edge. -/
def isGnmSample (s : List Edge) (n m : ℕ) : Prop :=
  s.length = m ∧ (∀ e ∈ s, e.1 < n ∧ e.2 < n ∧ e.1 ≠ e.2) ∧
    s.Pairwise (fun e f => ekey e ≠ ekey f)

instance {α : Type} [DecidableEq α] (s pop : List α) (k : ℕ) : Decidable (isSample s pop k) :=
  inferInstanceAs (Decidable (s.length = k ∧ s.Nodup ∧ ∀ x ∈ s, x ∈ pop))

instance (s : List Edge) (n m : ℕ) : Decidable (isGnmSample s n m) :=
  inferInstanceAs (Decidable (s.length = m ∧ (∀ e ∈ s, e.1 < n ∧ e.2 < n ∧ e.1 ≠ e.2) ∧
    s.Pairwise (fun e f => ekey e ≠ ekey f)))

/-- Edge list of networkx `complete_graph n`: every pair `(i, j)` with
`i < j < n`. -/
def completeGraphEdges : ℕ → List Edge
  | 0 => []
  | n + 1 => completeGraphEdges n ++ (List.range n).map (fun i => (i, n))

/-- networkx `gnm_random_graph(n, m)`: start from `empty_graph(n)`; a
single-node graph is returned immediately; when `m >= n*(n-1)/2.0` the
complete graph is returned; otherwise `m` edges are drawn at random (the
draw is the `sample` parameter). The float comparison `m >= n*(n-1)/2.0`
is rendered as the exact integer comparison `n*(n-1) <= 2*m`; the `n = 0`
case also lands in the first branch, where Python returns
`complete_graph(0)`, likewise empty. -/
def gnm_random_graph (n m : ℕ) (sample : List Edge) : Graph :=
  if n ≤ 1 then { nodes := List.range n, edges := [], nodeAttrs := [], edgeAttrs := [] }
  else if n * (n - 1) ≤ 2 * m then
    { nodes := List.range n, edges := completeGraphEdges n, nodeAttrs := [], edgeAttrs := [] }
  else { nodes := List.range n, edges := sample, nodeAttrs := [], edgeAttrs := [] }

/-- Embedding of `create_random_topology` (src/route.py lines 7-19). The
result is wrapped in `Except Err` so that claims about failure are
statable; for the natural-number arguments considered here
`nx.gnm_random_graph` never raises, so every call returns `Except.ok`. -/
def create_random_topology (num_nodes num_edges : ℕ) (sample : List Edge) : Except Err Graph :=
  .ok (gnm_random_graph num_nodes num_edges sample)

/-- Embedding of `apply_anonymous_routing` (src/route.py lines 23-48).
The two `random.sample` calls are modelled by the `nodeSample` and
`edgeSample` parameters; the `if` tests reproduce `random.sample`'s own
check `0 <= k <= len(population)`, whose violation raises `ValueError`
(`Err.invalidArgument`). Both samples are drawn from the original `G`,
while removals act on the copy, exactly as in the source. -/
def apply_anonymous_routing (G : Graph) (hide_ratio : ℚ)
    (nodeSample : List ℕ) (edgeSample : List Edge) :
    Except Err (Graph × List ℕ × List Edge) :=
  let G_anonymous := G.copy
  let kn := pyInt (hide_ratio * G.nodes.length)
  if kn < 0 ∨ (G.nodes.length : ℤ) < kn then .error .invalidArgument
  else
    let nodes_to_hide := nodeSample
    let hidden_nodes := nodes_to_hide
    let G_anonymous := remove_nodes_from G_anonymous nodes_to_hide
    let ke := pyInt (hide_ratio * G.edges.length)
    if ke < 0 ∨ (G.edges.length : ℤ) < ke then .error .invalidArgument
    else
      let edges_to_hide := edgeSample
      let hidden_edges := edges_to_hide
      let G_anonymous := remove_edges_from G_anonymous edges_to_hide
      .ok (G_anonymous, hidden_nodes, hidden_edges)

/-- Line-by-line state threading of the body of `apply_anonymous_routing`
for the caller-visible binding `G`: line 36 copies `G` into
`G_anonymous`, lines 39 and 44 only read `G`, and both removal calls
(lines 41 and 46) are invoked on `G_anonymous`. The function returns the
value the variable `G` holds when the body finishes, which makes the
non-mutation claim statable in the pure embedding. -/
def apply_anonymous_routing_caller_G (G : Graph) (hide_ratio : ℚ)
    (nodeSample : List ℕ) (edgeSample : List Edge) : Graph :=
  let G_anonymous := G.copy
  let nodes_to_hide := nodeSample
  let G_anonymous := remove_nodes_from G_anonymous nodes_to_hide
  let edges_to_hide := edgeSample
  let G_anonymous := remove_edges_from G_anonymous edges_to_hide
  G

/-- One iteration of the node-marking loop of `mark_anonymous_routes`
(line 68): `G_marked.nodes[node]` raises `KeyError` (`Err.notFound`) for
a node absent from the graph, otherwise the assignment sets the `hidden`
attribute. -/
def markNode (g : Graph) (n : ℕ) : Except Err Graph :=
  if n ∈ g.nodes then .ok { g with nodeAttrs := (n, true) :: g.nodeAttrs }
  else .error .notFound

/-- The node-marking loop of `mark_anonymous_routes` (lines 67-68). -/
def markNodes : Graph → List ℕ → Except Err Graph
  | g, [] => .ok g
  | g, n :: ns =>
    match markNode g n with
    | .error e => .error e
    | .ok g1 => markNodes g1 ns

/-- One iteration of the edge-marking loop of `mark_anonymous_routes`
(line 72): `G_marked.edges[edge]` looks the edge up in either
orientation and raises `KeyError` (`Err.notFound`) when absent,
otherwise the assignment sets the `hidden` attribute. -/
def markEdge (g : Graph) (e : Edge) : Except Err Graph :=
  if edgeIn e g.edges then .ok { g with edgeAttrs := (ekey e, true) :: g.edgeAttrs }
  else .error .notFound

/-- The edge-marking loop of `mark_anonymous_routes` (lines 71-72). -/
def markEdges : Graph → List Edge → Except Err Graph
  | g, [] => .ok g
  | g, e :: es =>
    match markEdge g e with
    | .error err => .error err
    | .ok g1 => markEdges g1 es

/-- Embedding of `mark_anonymous_routes` (src/route.py lines 52-74). -/
def mark_anonymous_routes (G : Graph) (hidden_nodes : List ℕ) (hidden_edges : List Edge) :
    Except Err Graph :=
  let G_marked := G.copy
  match markNodes G_marked hidden_nodes with
  | .error e => .error e
  | .ok g1 =>
    match markEdges g1 hidden_edges with
    | .error e => .error e
    | .ok g2 => .ok g2

/-- Embedding of `restore_topology` (src/route.py lines 78-98). -/
def restore_topology (G_anonymous : Graph) (hidden_nodes : List ℕ) (hidden_edges : List Edge) :
    Graph :=
  let G_restored := G_anonymous.copy
  let G_restored := add_nodes_from G_restored hidden_nodes
  let G_restored := add_edges_from G_restored hidden_edges
  G_restored

/-! Characterisation lemmas for the graph operations. -/

theorem lookupA_cons {α : Type} [DecidableEq α] (k : α) (v : Bool) (l : List (α × Bool)) (x : α) :
    lookupA ((k, v) :: l) x = if k = x then some v else lookupA l x := by
  by_cases h : k = x <;> simp [lookupA, List.find?_cons, h]

theorem ekey_eq_self {e : Edge} (h : e.1 ≤ e.2) : ekey e = e := if_pos h

theorem ekey_fst_le_snd (e : Edge) : (ekey e).1 ≤ (ekey e).2 := by
  unfold ekey
  split
  case isTrue h => exact h
  case isFalse h => exact le_of_not_le h

theorem mem_nodes_removeNode (G : Graph) (n x : ℕ) :
    x ∈ (removeNode G n).nodes ↔ x ∈ G.nodes ∧ x ≠ n := by
  simp [removeNode, List.mem_filter]

theorem mem_edges_removeNode (G : Graph) (n : ℕ) (e : Edge) :
    e ∈ (removeNode G n).edges ↔ e ∈ G.edges ∧ e.1 ≠ n ∧ e.2 ≠ n := by
  simp [removeNode, List.mem_filter]

theorem mem_nodes_remove_nodes_from (ns : List ℕ) (G : Graph) (x : ℕ) :
    x ∈ (remove_nodes_from G ns).nodes ↔ x ∈ G.nodes ∧ x ∉ ns := by
  induction ns generalizing G with
  | nil => simp [remove_nodes_from]
  | cons n ns ih =>
    simp only [remove_nodes_from, ih, mem_nodes_removeNode, List.mem_cons]
    tauto

theorem mem_edges_remove_nodes_from (ns : List ℕ) (G : Graph) (e : Edge) :
    e ∈ (remove_nodes_from G ns).edges ↔ e ∈ G.edges ∧ e.1 ∉ ns ∧ e.2 ∉ ns := by
  induction ns generalizing G with
  | nil => simp [remove_nodes_from]
  | cons n ns ih =>
    simp only [remove_nodes_from, ih, mem_edges_removeNode, List.mem_cons]
    tauto

theorem nodes_remove_edges_from (es : List Edge) (G : Graph) :
    (remove_edges_from G es).nodes = G.nodes := by
  induction es generalizing G with
  | nil => rfl
  | cons e es ih => simp [remove_edges_from, ih, removeEdge]

theorem mem_edges_remove_edges_from (es : List Edge) (G : Graph) (f : Edge) :
    f ∈ (remove_edges_from G es).edges ↔ f ∈ G.edges ∧ ∀ e ∈ es, ekey f ≠ ekey e := by
  induction es generalizing G with
  | nil => simp [remove_edges_from]
  | cons e es ih =>
    simp only [remove_edges_from, ih, removeEdge, List.mem_filter, List.mem_cons,
      decide_eq_true_eq]
    constructor
    · rintro ⟨⟨hf, hne⟩, hall⟩
      refine ⟨hf, ?_⟩
      rintro g (rfl | hg)
      · exact hne
      · exact hall g hg
    · rintro ⟨hf, hall⟩
      exact ⟨⟨hf, hall e (Or.inl rfl)⟩, fun g hg => hall g (Or.inr hg)⟩

theorem mem_nodes_addNode (G : Graph) (n x : ℕ) :
    x ∈ (addNode G n).nodes ↔ x ∈ G.nodes ∨ x = n := by
  unfold addNode
  by_cases h : n ∈ G.nodes
  · rw [if_pos h]
    constructor
    · exact Or.inl
    · rintro (hx | rfl)
      · exact hx
      · exact h
  · rw [if_neg h]
    simp

theorem edges_addNode (G : Graph) (n : ℕ) : (addNode G n).edges = G.edges := by
  unfold addNode
  by_cases h : n ∈ G.nodes <;> simp [h]

theorem mem_nodes_add_nodes_from (ns : List ℕ) (G : Graph) (x : ℕ) :
    x ∈ (add_nodes_from G ns).nodes ↔ x ∈ G.nodes ∨ x ∈ ns := by
  induction ns generalizing G with
  | nil => simp [add_nodes_from]
  | cons n ns ih =>
    simp only [add_nodes_from, ih, mem_nodes_addNode, List.mem_cons]
    tauto

theorem edges_add_nodes_from (ns : List ℕ) (G : Graph) :
    (add_nodes_from G ns).edges = G.edges := by
  induction ns generalizing G with
  | nil => rfl
  | cons n ns ih => simp [add_nodes_from, ih, edges_addNode]

theorem mem_nodes_addEdge (G : Graph) (e : Edge) (x : ℕ) :
    x ∈ (addEdge G e).nodes ↔ x ∈ G.nodes ∨ x = e.1 ∨ x = e.2 := by
  unfold addEdge
  by_cases h : edgeIn e G.edges <;>
    simp [h, mem_nodes_addNode, or_assoc]

theorem mem_edges_addEdge (G : Graph) (e f : Edge) :
    f ∈ (addEdge G e).edges ↔ f ∈ G.edges ∨ (¬ edgeIn e G.edges ∧ f = e) := by
  unfold addEdge
  have hE : (addNode (addNode G e.1) e.2).edges = G.edges := by
    rw [edges_addNode, edges_addNode]
  by_cases h : edgeIn e G.edges
  · rw [if_pos h, hE]
    constructor
    · exact Or.inl
    · rintro (hf | ⟨hne, rfl⟩)
      · exact hf
      · exact absurd h hne
  · rw [if_neg h]
    show f ∈ (addNode (addNode G e.1) e.2).edges ++ [e] ↔ _
    rw [hE]
    simp only [List.mem_append, List.mem_singleton]
    constructor
    · rintro (hf | rfl)
      · exact Or.inl hf
      · exact Or.inr ⟨h, rfl⟩
    · rintro (hf | ⟨_, rfl⟩)
      · exact Or.inl hf
      · exact Or.inr rfl

theorem mem_nodes_add_edges_from (es : List Edge) (G : Graph) (x : ℕ) :
    x ∈ (add_edges_from G es).nodes ↔ x ∈ G.nodes ∨ ∃ e ∈ es, x = e.1 ∨ x = e.2 := by
  induction es generalizing G with
  | nil => simp [add_edges_from]
  | cons e es ih =>
    simp only [add_edges_from, ih, mem_nodes_addEdge, List.mem_cons]
    constructor
    · rintro ((hx | hx | hx) | ⟨f, hf, hx⟩)
      · exact Or.inl hx
      · exact Or.inr ⟨e, Or.inl rfl, Or.inl hx⟩
      · exact Or.inr ⟨e, Or.inl rfl, Or.inr hx⟩
      · exact Or.inr ⟨f, Or.inr hf, hx⟩
    · rintro (hx | ⟨f, rfl | hf, hx⟩)
      · exact Or.inl (Or.inl hx)
      · exact Or.inl (Or.inr hx)
      · exact Or.inr ⟨f, hf, hx⟩

theorem mem_edges_add_edges_from_sub (es : List Edge) (G : Graph) (f : Edge) :
    f ∈ (add_edges_from G es).edges → f ∈ G.edges ∨ f ∈ es := by
  induction es generalizing G with
  | nil => exact fun h => Or.inl h
  | cons e es ih =>
    intro h
    rcases ih _ h with h1 | h1
    · rcases (mem_edges_addEdge G e f).mp h1 with h2 | ⟨_, rfl⟩
      · exact Or.inl h2
      · exact Or.inr (List.mem_cons_self _ _)
    · exact Or.inr (List.mem_cons_of_mem _ h1)

theorem edges_of_addEdge_superset (G : Graph) (e f : Edge) (h : f ∈ G.edges) :
    f ∈ (addEdge G e).edges :=
  (mem_edges_addEdge G e f).mpr (Or.inl h)

theorem edgeIn_addEdge (G : Graph) (e f : Edge) :
    edgeIn f (addEdge G e).edges ↔ edgeIn f G.edges ∨ ekey e = ekey f := by
  have hE : (addNode (addNode G e.1) e.2).edges = G.edges := by
    rw [edges_addNode, edges_addNode]
  constructor
  · rintro ⟨g, hg, hgf⟩
    rcases (mem_edges_addEdge G e g).mp hg with h1 | ⟨_, rfl⟩
    · exact Or.inl ⟨g, h1, hgf⟩
    · exact Or.inr hgf
  · rintro (⟨g, hg, hgf⟩ | he)
    · exact ⟨g, edges_of_addEdge_superset G e g hg, hgf⟩
    · by_cases h : edgeIn e G.edges
      · obtain ⟨g, hg, hge⟩ := h
        exact ⟨g, edges_of_addEdge_superset G e g hg, hge.trans he⟩
      · exact ⟨e, (mem_edges_addEdge G e e).mpr (Or.inr ⟨h, rfl⟩), he⟩

theorem edgeIn_add_edges_from (es : List Edge) (G : Graph) (f : Edge) :
    edgeIn f (add_edges_from G es).edges ↔ edgeIn f G.edges ∨ edgeIn f es := by
  induction es generalizing G with
  | nil => simp [add_edges_from, edgeIn]
  | cons e es ih =>
    simp only [add_edges_from, ih, edgeIn_addEdge]
    constructor
    · rintro ((h | h) | h)
      · exact Or.inl h
      · exact Or.inr ⟨e, List.mem_cons_self _ _, h⟩
      · obtain ⟨g, hg, hgf⟩ := h
        exact Or.inr ⟨g, List.mem_cons_of_mem _ hg, hgf⟩
    · rintro (h | ⟨g, hg, hgf⟩)
      · exact Or.inl (Or.inl h)
      · rcases List.mem_cons.mp hg with rfl | hg
        · exact Or.inl (Or.inr hgf)
        · exact Or.inr ⟨g, hg, hgf⟩

theorem mem_completeGraphEdges (n : ℕ) (e : Edge) :
    e ∈ completeGraphEdges n ↔ e.1 < e.2 ∧ e.2 < n := by
  induction n with
  | zero => simp [completeGraphEdges]
  | succ n ih =>
    simp only [completeGraphEdges, List.mem_append, ih, List.mem_map, List.mem_range]
    constructor
    · rintro (⟨h1, h2⟩ | ⟨i, hi, rfl⟩)
      · exact ⟨h1, h2.trans (Nat.lt_succ_self n)⟩
      · exact ⟨hi, Nat.lt_succ_self n⟩
    · rintro ⟨h1, h2⟩
      rcases Nat.lt_succ_iff_lt_or_eq.mp h2 with h2 | h2
      · exact Or.inl ⟨h1, h2⟩
      · refine Or.inr ⟨e.1, by rw [← h2]; exact h1, ?_⟩
        rw [← h2]

theorem length_completeGraphEdges (n : ℕ) :
    2 * (completeGraphEdges n).length = n * (n - 1) := by
  induction n with
  | zero => rfl
  | succ n ih =>
    simp only [completeGraphEdges, List.length_append, List.length_map, List.length_range]
    rw [Nat.mul_add, ih, Nat.succ_sub_one]
    cases n with
    | zero => rfl
    | succ m =>
      rw [Nat.succ_sub_one]
      ring

theorem nodup_completeGraphEdges (n : ℕ) : (completeGraphEdges n).Nodup := by
  induction n with
  | zero => simp [completeGraphEdges]
  | succ n ih =>
    refine List.Nodup.append ih ?_ ?_
    · exact (List.nodup_range n).map (fun a b h => congrArg Prod.fst h)
    · intro e he1 he2
      have h1 := ((mem_completeGraphEdges n e).mp he1).2
      obtain ⟨i, _, rfl⟩ := List.mem_map.mp he2
      exact absurd h1 (lt_irrefl n)

theorem pairwise_ekey_completeGraphEdges (n : ℕ) :
    (completeGraphEdges n).Pairwise (fun e f => ekey e ≠ ekey f) := by
  refine (nodup_completeGraphEdges n).imp_of_mem ?_
  intro a b ha hb hne
  have ca : ekey a = a := ekey_eq_self (le_of_lt ((mem_completeGraphEdges n a).mp ha).1)
  have cb : ekey b = b := ekey_eq_self (le_of_lt ((mem_completeGraphEdges n b).mp hb).1)
  rw [ca, cb]
  exact hne

theorem isSample_full {α : Type} [DecidableEq α] {s pop : List α} (hpop : pop.Nodup)
    (hs : isSample s pop pop.length) : ∀ x, x ∈ s ↔ x ∈ pop := by
  obtain ⟨hlen, hnd, hsub⟩ := hs
  have hsp : s.Subperm pop := List.subperm_of_subset hnd (fun x hx => hsub x hx)
  have hperm : s.Perm pop := hsp.perm_of_length_le (by rw [hlen])
  exact fun x => hperm.mem_iff

theorem pyInt_eq_floor {q : ℚ} (h : 0 ≤ q) : pyInt q = ⌊q⌋ := if_pos h

theorem pyInt_ratio_bounds (r : ℚ) (c : ℕ) (h0 : 0 ≤ r) (h1 : r ≤ 1) :
    0 ≤ pyInt (r * c) ∧ pyInt (r * c) ≤ (c : ℤ) := by
  have hq : (0 : ℚ) ≤ r * c := mul_nonneg h0 (Nat.cast_nonneg c)
  rw [pyInt_eq_floor hq]
  refine ⟨Int.floor_nonneg.mpr hq, ?_⟩
  have hle : r * c ≤ (c : ℚ) := by
    calc r * c ≤ 1 * c := mul_le_mul_of_nonneg_right h1 (Nat.cast_nonneg c)
      _ = c := one_mul _
  calc ⌊r * (c : ℚ)⌋ ≤ ⌊(c : ℚ)⌋ := Int.floor_le_floor hle
    _ = c := Int.floor_natCast c

theorem apply_anonymous_routing_eq_ok (G : Graph) (r : ℚ) (ns : List ℕ) (es : List Edge)
    (h1 : 0 ≤ pyInt (r * G.nodes.length) ∧ pyInt (r * G.nodes.length) ≤ (G.nodes.length : ℤ))
    (h2 : 0 ≤ pyInt (r * G.edges.length) ∧ pyInt (r * G.edges.length) ≤ (G.edges.length : ℤ)) :
    apply_anonymous_routing G r ns es =
      .ok (remove_edges_from (remove_nodes_from G ns) es, ns, es) := by
  simp only [apply_anonymous_routing, Graph.copy]
  rw [if_neg (by omega), if_neg (by omega)]

theorem apply_anonymous_routing_error_char (G : Graph) (r : ℚ) (ns : List ℕ) (es : List Edge) :
    apply_anonymous_routing G r ns es = .error .invalidArgument ↔
      (pyInt (r * G.nodes.length) < 0 ∨ (G.nodes.length : ℤ) < pyInt (r * G.nodes.length) ∨
       pyInt (r * G.edges.length) < 0 ∨ (G.edges.length : ℤ) < pyInt (r * G.edges.length)) := by
  simp only [apply_anonymous_routing, Graph.copy]
  by_cases hn : pyInt (r * G.nodes.length) < 0 ∨ (G.nodes.length : ℤ) < pyInt (r * G.nodes.length)
  · rw [if_pos hn]
    simp only [true_iff]
    omega
  · rw [if_neg hn]
    by_cases he : pyInt (r * G.edges.length) < 0 ∨ (G.edges.length : ℤ) < pyInt (r * G.edges.length)
    · rw [if_pos he]
      simp only [true_iff]
      omega
    · rw [if_neg he]
      constructor
      · intro h
        exact Except.noConfusion h
      · intro h
        omega

theorem markNodes_ok_sets : ∀ (hn : List ℕ) (g g1 : Graph), markNodes g hn = .ok g1 →
    g1.nodes = g.nodes ∧ g1.edges = g.edges ∧ g1.edgeAttrs = g.edgeAttrs := by
  intro hn
  induction hn with
  | nil =>
    intro g g1 h
    cases h
    exact ⟨rfl, rfl, rfl⟩
  | cons n ns ih =>
    intro g g1 h
    simp only [markNodes, markNode] at h
    by_cases hm : n ∈ g.nodes
    · simp only [if_pos hm] at h
      have h2 := ih { g with nodeAttrs := (n, true) :: g.nodeAttrs } g1 h
      exact h2
    · simp only [if_neg hm] at h
      exact Except.noConfusion h

theorem markNodes_ok_of_mem : ∀ (hn : List ℕ) (g : Graph), (∀ n ∈ hn, n ∈ g.nodes) →
    ∃ g1, markNodes g hn = .ok g1 := by
  intro hn
  induction hn with
  | nil => exact fun g _ => ⟨g, rfl⟩
  | cons n ns ih =>
    intro g h
    have hm : n ∈ g.nodes := h n (List.mem_cons_self _ _)
    obtain ⟨g1, hg1⟩ := ih { g with nodeAttrs := (n, true) :: g.nodeAttrs }
      (fun x hx => h x (List.mem_cons_of_mem _ hx))
    refine ⟨g1, ?_⟩
    simp only [markNodes, markNode, if_pos hm]
    exact hg1

theorem markNodes_error : ∀ (hn : List ℕ) (g : Graph), (∃ n ∈ hn, n ∉ g.nodes) →
    markNodes g hn = .error .notFound := by
  intro hn
  induction hn with
  | nil =>
    intro g h
    simp at h
  | cons n ns ih =>
    intro g h
    by_cases hm : n ∈ g.nodes
    · obtain ⟨x, hx, hxg⟩ := h
      rcases List.mem_cons.mp hx with rfl | hx
      · exact absurd hm hxg
      · simp only [markNodes, markNode, if_pos hm]
        exact ih _ ⟨x, hx, hxg⟩
    · simp only [markNodes, markNode, if_neg hm]

theorem markNodes_lookup : ∀ (hn : List ℕ) (g g1 : Graph), markNodes g hn = .ok g1 →
    ∀ x : ℕ, lookupA g1.nodeAttrs x = if x ∈ hn then some true else lookupA g.nodeAttrs x := by
  intro hn
  induction hn with
  | nil =>
    intro g g1 h x
    cases h
    simp
  | cons n ns ih =>
    intro g g1 h x
    simp only [markNodes, markNode] at h
    by_cases hm : n ∈ g.nodes
    · simp only [if_pos hm] at h
      rw [ih _ _ h]
      by_cases hx : x ∈ ns
      · simp [hx, List.mem_cons]
      · have hlk : lookupA ((n, true) :: g.nodeAttrs) x =
            if n = x then some true else lookupA g.nodeAttrs x := lookupA_cons n true g.nodeAttrs x
        rw [if_neg hx]
        show lookupA ({ g with nodeAttrs := (n, true) :: g.nodeAttrs } : Graph).nodeAttrs x = _
        by_cases hxn : n = x
        · have hmem : x ∈ n :: ns := by
            rw [← hxn]
            exact List.mem_cons_self _ _
          rw [if_pos hmem]
          show lookupA ((n, true) :: g.nodeAttrs) x = some true
          rw [hlk, if_pos hxn]
        · have hnmem : x ∉ n :: ns := by
            intro hmem
            rcases List.mem_cons.mp hmem with rfl | hc
            · exact hxn rfl
            · exact hx hc
          rw [if_neg hnmem]
          show lookupA ((n, true) :: g.nodeAttrs) x = lookupA g.nodeAttrs x
          rw [hlk, if_neg hxn]
    · simp only [if_neg hm] at h
      exact Except.noConfusion h

theorem markEdges_ok_sets : ∀ (he : List Edge) (g g1 : Graph), markEdges g he = .ok g1 →
    g1.nodes = g.nodes ∧ g1.edges = g.edges ∧ g1.nodeAttrs = g.nodeAttrs := by
  intro he
  induction he with
  | nil =>
    intro g g1 h
    cases h
    exact ⟨rfl, rfl, rfl⟩
  | cons e es ih =>
    intro g g1 h
    simp only [markEdges, markEdge] at h
    by_cases hm : edgeIn e g.edges
    · simp only [if_pos hm] at h
      have h2 := ih { g with edgeAttrs := (ekey e, true) :: g.edgeAttrs } g1 h
      exact h2
    · simp only [if_neg hm] at h
      exact Except.noConfusion h

theorem markEdges_ok_of_mem : ∀ (he : List Edge) (g : Graph), (∀ e ∈ he, edgeIn e g.edges) →
    ∃ g1, markEdges g he = .ok g1 := by
  intro he
  induction he with
  | nil => exact fun g _ => ⟨g, rfl⟩
  | cons e es ih =>
    intro g h
    have hm : edgeIn e g.edges := h e (List.mem_cons_self _ _)
    obtain ⟨g1, hg1⟩ := ih { g with edgeAttrs := (ekey e, true) :: g.edgeAttrs }
      (fun x hx => h x (List.mem_cons_of_mem _ hx))
    refine ⟨g1, ?_⟩
    simp only [markEdges, markEdge, if_pos hm]
    exact hg1

theorem markEdges_error : ∀ (he : List Edge) (g : Graph), (∃ e ∈ he, ¬ edgeIn e g.edges) →
    markEdges g he = .error .notFound := by
  intro he
  induction he with
  | nil =>
    intro g h
    simp at h
  | cons e es ih =>
    intro g h
    by_cases hm : edgeIn e g.edges
    · obtain ⟨x, hx, hxg⟩ := h
      rcases List.mem_cons.mp hx with rfl | hx
      · exact absurd hm hxg
      · simp only [markEdges, markEdge, if_pos hm]
        exact ih _ ⟨x, hx, hxg⟩
    · simp only [markEdges, markEdge, if_neg hm]

theorem markEdges_lookup : ∀ (he : List Edge) (g g1 : Graph), markEdges g he = .ok g1 →
    ∀ k : Edge, lookupA g1.edgeAttrs k =
      if ∃ e ∈ he, ekey e = k then some true else lookupA g.edgeAttrs k := by
  intro he
  induction he with
  | nil =>
    intro g g1 h k
    cases h
    simp
  | cons e es ih =>
    intro g g1 h k
    simp only [markEdges, markEdge] at h
    by_cases hm : edgeIn e g.edges
    · simp only [if_pos hm] at h
      rw [ih _ _ h]
      by_cases hk : ∃ f ∈ es, ekey f = k
      · rw [if_pos hk]
        have : ∃ f ∈ e :: es, ekey f = k := by
          obtain ⟨f, hf, hfk⟩ := hk
          exact ⟨f, List.mem_cons_of_mem _ hf, hfk⟩
        rw [if_pos this]
      · have hlk : lookupA ((ekey e, true) :: g.edgeAttrs) k =
            if ekey e = k then some true else lookupA g.edgeAttrs k :=
          lookupA_cons (ekey e) true g.edgeAttrs k
        rw [if_neg hk]
        show lookupA ({ g with edgeAttrs := (ekey e, true) :: g.edgeAttrs } : Graph).edgeAttrs k = _
        by_cases hek : ekey e = k
        · have hmem : ∃ f ∈ e :: es, ekey f = k := ⟨e, List.mem_cons_self _ _, hek⟩
          rw [if_pos hmem]
          show lookupA ((ekey e, true) :: g.edgeAttrs) k = some true
          rw [hlk, if_pos hek]
        · have hnmem : ¬ ∃ f ∈ e :: es, ekey f = k := by
            rintro ⟨f, hf, hfk⟩
            rcases List.mem_cons.mp hf with rfl | hf
            · exact hek hfk
            · exact hk ⟨f, hf, hfk⟩
          rw [if_neg hnmem]
          show lookupA ((ekey e, true) :: g.edgeAttrs) k = lookupA g.edgeAttrs k
          rw [hlk, if_neg hek]
    · simp only [if_neg hm] at h
      exact Except.noConfusion h

theorem lookupA_eq_some {α : Type} [DecidableEq α] {l : List (α × Bool)} {k : α} {v : Bool}
    (h : lookupA l k = some v) : (k, v) ∈ l := by
  unfold lookupA at h
  cases hf : l.find? (fun p => p.1 == k) with
  | none =>
    rw [hf] at h
    simp at h
  | some p =>
    rw [hf] at h
    simp at h
    have hm := List.mem_of_find?_eq_some hf
    have hk := List.find?_some hf
    rw [beq_iff_eq] at hk
    have hp : p = (k, v) := by
      cases p
      simp_all
    rw [hp] at hm
    exact hm

theorem mark_anonymous_routes_ok (G : Graph) (hn : List ℕ) (he : List Edge)
    (hhn : ∀ n ∈ hn, n ∈ G.nodes) (hhe : ∀ e ∈ he, edgeIn e G.edges) :
    ∃ Gm, mark_anonymous_routes G hn he = .ok Gm ∧
      Gm.nodes = G.nodes ∧ Gm.edges = G.edges ∧
      (∀ x, lookupA Gm.nodeAttrs x = if x ∈ hn then some true else lookupA G.nodeAttrs x) ∧
      (∀ k, lookupA Gm.edgeAttrs k =
        if ∃ e ∈ he, ekey e = k then some true else lookupA G.edgeAttrs k) := by
  obtain ⟨g1, hg1⟩ := markNodes_ok_of_mem hn G hhn
  obtain ⟨hs1, hs2, hs3⟩ := markNodes_ok_sets hn G g1 hg1
  obtain ⟨g2, hg2⟩ := markEdges_ok_of_mem he g1 (by rw [hs2]; exact hhe)
  obtain ⟨ht1, ht2, ht3⟩ := markEdges_ok_sets he g1 g2 hg2
  refine ⟨g2, ?_, ?_, ?_, ?_, ?_⟩
  · simp only [mark_anonymous_routes, Graph.copy, hg1, hg2]
  · rw [ht1, hs1]
  · rw [ht2, hs2]
  · intro x
    rw [ht3, markNodes_lookup hn G g1 hg1 x]
  · intro k
    rw [markEdges_lookup he g1 g2 hg2 k, hs3]

theorem mark_anonymous_routes_error (G : Graph) (hn : List ℕ) (he : List Edge)
    (h : (∃ n ∈ hn, n ∉ G.nodes) ∨ (∃ e ∈ he, ¬ edgeIn e G.edges)) :
    mark_anonymous_routes G hn he = .error .notFound := by
  by_cases hall : ∀ n ∈ hn, n ∈ G.nodes
  · obtain ⟨g1, hg1⟩ := markNodes_ok_of_mem hn G hall
    obtain ⟨_, hs2, _⟩ := markNodes_ok_sets hn G g1 hg1
    rcases h with h | h
    · obtain ⟨x, hx, hxg⟩ := h
      exact absurd (hall x hx) hxg
    · have herr := markEdges_error he g1 (by rw [hs2]; exact h)
      simp only [mark_anonymous_routes, Graph.copy, hg1, herr]
  · push_neg at hall
    have herr := markNodes_error hn G hall
    simp only [mark_anonymous_routes, Graph.copy, herr]

theorem nodes_restore_topology (Ga : Graph) (hn : List ℕ) (he : List Edge) (x : ℕ) :
    x ∈ (restore_topology Ga hn he).nodes ↔
      x ∈ Ga.nodes ∨ x ∈ hn ∨ ∃ e ∈ he, x = e.1 ∨ x = e.2 := by
  unfold restore_topology Graph.copy
  rw [mem_nodes_add_edges_from, mem_nodes_add_nodes_from, or_assoc]

theorem edges_restore_topology_sub (Ga : Graph) (hn : List ℕ) (he : List Edge) (f : Edge) :
    f ∈ (restore_topology Ga hn he).edges → f ∈ Ga.edges ∨ f ∈ he := by
  unfold restore_topology Graph.copy
  intro h
  rcases mem_edges_add_edges_from_sub he _ f h with h1 | h1
  · rw [edges_add_nodes_from] at h1
    exact Or.inl h1
  · exact Or.inr h1

theorem edgeIn_restore_topology (Ga : Graph) (hn : List ℕ) (he : List Edge) (f : Edge) :
    edgeIn f (restore_topology Ga hn he).edges ↔ edgeIn f Ga.edges ∨ edgeIn f he := by
  unfold restore_topology Graph.copy
  rw [edgeIn_add_edges_from, edges_add_nodes_from]

theorem restore_after_apply_nodes (G : Graph) (ns : List ℕ) (es : List Edge) (hWF : WF G)
    (hnsub : ∀ x ∈ ns, x ∈ G.nodes) (hesub : ∀ e ∈ es, e ∈ G.edges) (x : ℕ) :
    x ∈ (restore_topology (remove_edges_from (remove_nodes_from G ns) es) ns es).nodes ↔
      x ∈ G.nodes := by
  rw [nodes_restore_topology, nodes_remove_edges_from, mem_nodes_remove_nodes_from]
  constructor
  · rintro (⟨h, _⟩ | h | ⟨e, he, hx⟩)
    · exact h
    · exact hnsub x h
    · have hG := hWF.2 e (hesub e he)
      rcases hx with rfl | rfl
      · exact hG.1
      · exact hG.2.1
  · intro h
    by_cases hx : x ∈ ns
    · exact Or.inr (Or.inl hx)
    · exact Or.inl ⟨h, hx⟩

theorem restore_after_apply_edges_sub (G : Graph) (ns : List ℕ) (es : List Edge)
    (hesub : ∀ e ∈ es, e ∈ G.edges) (f : Edge) :
    f ∈ (restore_topology (remove_edges_from (remove_nodes_from G ns) es) ns es).edges →
      f ∈ G.edges := by
  intro hf
  rcases edges_restore_topology_sub _ _ _ f hf with h | h
  · rw [mem_edges_remove_edges_from, mem_edges_remove_nodes_from] at h
    exact h.1.1
  · exact hesub f h

/-! Claim theorems. -/

/-- C3: for all `numNodes, numEdges` with `0 ≤ numEdges ≤ numNodes*(numNodes-1)/2`
(equivalently `2*numEdges ≤ numNodes*(numNodes-1)`), `create_random_topology`
returns a graph whose node set is exactly `{0, ..., numNodes-1}` (`numNodes`
nodes) and whose edge list holds exactly `numEdges` edges, none a self-loop,
no two denoting the same undirected edge. -/
theorem C3_create_random_topology_counts (n m : ℕ) (s : List Edge)
    (hm : 2 * m ≤ n * (n - 1)) (hs : isGnmSample s n m) :
    ∃ G, create_random_topology n m s = .ok G ∧
      G.nodes.length = n ∧ G.nodes.Nodup ∧ (∀ x, x ∈ G.nodes ↔ x < n) ∧
      G.edges.length = m ∧ (∀ e ∈ G.edges, e.1 ≠ e.2) ∧
      G.edges.Pairwise (fun e f => ekey e ≠ ekey f) := by
  refine ⟨gnm_random_graph n m s, rfl, ?_⟩
  unfold gnm_random_graph
  by_cases h1 : n ≤ 1
  · rw [if_pos h1]
    have hm0 : m = 0 := by
      have hz : n * (n - 1) = 0 := by
        rcases Nat.le_one_iff_eq_zero_or_eq_one.mp h1 with rfl | rfl <;> rfl
      omega
    subst hm0
    exact ⟨List.length_range n, List.nodup_range n, fun x => List.mem_range, rfl,
      fun e he => absurd he (List.not_mem_nil e), List.Pairwise.nil⟩
  · rw [if_neg h1]
    by_cases h2 : n * (n - 1) ≤ 2 * m
    · rw [if_pos h2]
      have hlen : (completeGraphEdges n).length = m := by
        have := length_completeGraphEdges n
        omega
      refine ⟨List.length_range n, List.nodup_range n, fun x => List.mem_range, hlen, ?_,
        pairwise_ekey_completeGraphEdges n⟩
      intro e he
      exact Nat.ne_of_lt ((mem_completeGraphEdges n e).mp he).1
    · rw [if_neg h2]
      obtain ⟨hsl, hmem, hpw⟩ := hs
      exact ⟨List.length_range n, List.nodup_range n, fun x => List.mem_range, hsl,
        fun e he => (hmem e he).2.2, hpw⟩

/-- Witness for C3 at `numNodes = 3`, `numEdges = 2`, drawn edges
`[(0,1), (1,2)]`. -/
theorem C3_create_random_topology_counts_witness :
    2 * 2 ≤ 3 * (3 - 1) ∧ isGnmSample [(0, 1), (1, 2)] 3 2 ∧
    ∃ G, create_random_topology 3 2 [(0, 1), (1, 2)] = .ok G ∧
      G.nodes.length = 3 ∧ G.nodes.Nodup ∧ (∀ x, x ∈ G.nodes ↔ x < 3) ∧
      G.edges.length = 2 ∧ (∀ e ∈ G.edges, e.1 ≠ e.2) ∧
      G.edges.Pairwise (fun e f => ekey e ≠ ekey f) :=
  ⟨by decide, by decide,
    C3_create_random_topology_counts 3 2 [(0, 1), (1, 2)] (by decide) (by decide)⟩

/-- C2 counterexample: with `numNodes = 3`, `numEdges = 4 > 3 = 3*2/2`,
`create_random_topology` does not fail with `InvalidArgument`: it returns
the complete graph on 3 nodes (the `gnm_random_graph` cap). -/
theorem C2_counterexample :
    3 * (3 - 1) / 2 < 4 ∧
    create_random_topology 3 4 [] =
      .ok { nodes := [0, 1, 2], edges := [(0, 1), (0, 2), (1, 2)],
            nodeAttrs := [], edgeAttrs := [] } := by
  exact ⟨by decide, by decide⟩

/-- C2 (amended): for all `numNodes, numEdges` with
`numEdges > numNodes*(numNodes-1)/2`, `create_random_topology` does not
fail; it returns the complete graph on `numNodes` nodes (the requested
edge count is ignored). -/
theorem C2_create_random_topology_overflow (n m : ℕ) (s : List Edge)
    (h : n * (n - 1) < 2 * m) :
    create_random_topology n m s =
      .ok { nodes := List.range n, edges := completeGraphEdges n,
            nodeAttrs := [], edgeAttrs := [] } := by
  unfold create_random_topology gnm_random_graph
  by_cases h1 : n ≤ 1
  · rw [if_pos h1]
    rcases Nat.le_one_iff_eq_zero_or_eq_one.mp h1 with rfl | rfl <;> rfl
  · rw [if_neg h1, if_pos (le_of_lt h)]

/-- Witness for the amended C2 at `numNodes = 2`, `numEdges = 5`. -/
theorem C2_create_random_topology_overflow_witness :
    2 * (2 - 1) < 2 * 5 ∧
    create_random_topology 2 5 [] =
      .ok { nodes := List.range 2, edges := completeGraphEdges 2,
            nodeAttrs := [], edgeAttrs := [] } :=
  ⟨by decide, C2_create_random_topology_overflow 2 5 [] (by decide)⟩

/-- C4 counterexample: `hideRatio = 2` lies outside `[0,1]`, yet
`apply_anonymous_routing` on the empty graph succeeds (both truncated
sample counts are `0`, so `random.sample` raises nothing); no range
check on `hideRatio` exists in the code. -/
theorem C4_counterexample :
    (1 : ℚ) < 2 ∧
    apply_anonymous_routing { nodes := [], edges := [], nodeAttrs := [], edgeAttrs := [] }
      2 [] [] =
      .ok ({ nodes := [], edges := [], nodeAttrs := [], edgeAttrs := [] }, [], []) := by
  constructor
  · norm_num
  · exact apply_anonymous_routing_eq_ok
      { nodes := [], edges := [], nodeAttrs := [], edgeAttrs := [] } 2 [] []
      (by norm_num [pyInt]) (by norm_num [pyInt])

/-- C4 (amended): `apply_anonymous_routing` performs no validation of
`hideRatio` itself; it fails (with the `ValueError` of `random.sample`,
`Err.invalidArgument`) exactly when a truncated sample count
`int(hideRatio * count)` falls outside `[0, count]` for the node or the
edge population, and succeeds otherwise, even for `hideRatio` outside
`[0,1]`. -/
theorem C4_no_ratio_validation (G : Graph) (r : ℚ) (ns : List ℕ) (es : List Edge) :
    apply_anonymous_routing G r ns es = .error .invalidArgument ↔
      (pyInt (r * G.nodes.length) < 0 ∨ (G.nodes.length : ℤ) < pyInt (r * G.nodes.length) ∨
       pyInt (r * G.edges.length) < 0 ∨ (G.edges.length : ℤ) < pyInt (r * G.edges.length)) :=
  apply_anonymous_routing_error_char G r ns es

/-- C5: for `hideRatio` in `[0,1]` and samples as drawn by
`random.sample`, `apply_anonymous_routing` succeeds and returns
`hiddenNodes` of length `⌊hideRatio * |V|⌋` and `hiddenEdges` of length
`⌊hideRatio * |E|⌋`, both duplicate-free and drawn from the original
node and edge lists. -/
theorem C5_sample_sizes (G : Graph) (r : ℚ) (ns : List ℕ) (es : List Edge)
    (hr0 : 0 ≤ r) (hr1 : r ≤ 1)
    (hns : isSample ns G.nodes (pyInt (r * G.nodes.length)).toNat)
    (hes : isSample es G.edges (pyInt (r * G.edges.length)).toNat) :
    ∃ Ga, apply_anonymous_routing G r ns es = .ok (Ga, ns, es) ∧
      (ns.length : ℤ) = ⌊r * G.nodes.length⌋ ∧ (es.length : ℤ) = ⌊r * G.edges.length⌋ ∧
      ns.Nodup ∧ (∀ x ∈ ns, x ∈ G.nodes) ∧ es.Nodup ∧ (∀ e ∈ es, e ∈ G.edges) := by
  have h1 := pyInt_ratio_bounds r G.nodes.length hr0 hr1
  have h2 := pyInt_ratio_bounds r G.edges.length hr0 hr1
  refine ⟨_, apply_anonymous_routing_eq_ok G r ns es h1 h2, ?_, ?_,
    hns.2.1, hns.2.2, hes.2.1, hes.2.2⟩
  · rw [hns.1, Int.toNat_of_nonneg h1.1]
    exact pyInt_eq_floor (mul_nonneg hr0 (Nat.cast_nonneg _))
  · rw [hes.1, Int.toNat_of_nonneg h2.1]
    exact pyInt_eq_floor (mul_nonneg hr0 (Nat.cast_nonneg _))

/-- Witness for C5: three nodes, one edge, `hideRatio = 1/2`, node
sample `[2]`, edge sample `[]`. -/
theorem C5_sample_sizes_witness :
    (0 : ℚ) ≤ 1/2 ∧ (1/2 : ℚ) ≤ 1 ∧
    isSample [2] (⟨[0, 1, 2], [(0, 1)], [], []⟩ : Graph).nodes (pyInt ((1/2 : ℚ) * (⟨[0, 1, 2], [(0, 1)], [], []⟩ : Graph).nodes.length)).toNat ∧
    isSample [] (⟨[0, 1, 2], [(0, 1)], [], []⟩ : Graph).edges (pyInt ((1/2 : ℚ) * (⟨[0, 1, 2], [(0, 1)], [], []⟩ : Graph).edges.length)).toNat ∧
    ∃ Ga, apply_anonymous_routing (⟨[0, 1, 2], [(0, 1)], [], []⟩ : Graph) (1/2) [2] [] = .ok (Ga, [2], []) ∧
      (([2] : List ℕ).length : ℤ) = ⌊(1/2 : ℚ) * (⟨[0, 1, 2], [(0, 1)], [], []⟩ : Graph).nodes.length⌋ ∧
      (([] : List Edge).length : ℤ) = ⌊(1/2 : ℚ) * (⟨[0, 1, 2], [(0, 1)], [], []⟩ : Graph).edges.length⌋ ∧
      ([2] : List ℕ).Nodup ∧
      (∀ x ∈ ([2] : List ℕ), x ∈ (⟨[0, 1, 2], [(0, 1)], [], []⟩ : Graph).nodes) ∧
      ([] : List Edge).Nodup ∧
      (∀ e ∈ ([] : List Edge), e ∈ (⟨[0, 1, 2], [(0, 1)], [], []⟩ : Graph).edges) :=
  ⟨by norm_num, by norm_num, by norm_num [isSample, pyInt], by norm_num [isSample, pyInt],
    C5_sample_sizes (⟨[0, 1, 2], [(0, 1)], [], []⟩ : Graph) (1/2) [2] []
      (by norm_num) (by norm_num)
      (by norm_num [isSample, pyInt]) (by norm_num [isSample, pyInt])⟩

/-- C6: the concealment pass never mutates the caller's graph `G`: the
value the variable `G` holds when the body of `apply_anonymous_routing`
finishes has the same node list and edge list it started with (all
removals act on the copy `G_anonymous`). -/
theorem C6_no_mutation (G : Graph) (r : ℚ) (ns : List ℕ) (es : List Edge)
    (hr0 : 0 ≤ r) (hr1 : r ≤ 1) :
    (apply_anonymous_routing_caller_G G r ns es).nodes = G.nodes ∧
    (apply_anonymous_routing_caller_G G r ns es).edges = G.edges :=
  ⟨rfl, rfl⟩

/-- Witness for C6 at a concrete one-node graph and `hideRatio = 1/2`. -/
theorem C6_no_mutation_witness :
    (0 : ℚ) ≤ 1/2 ∧ (1/2 : ℚ) ≤ 1 ∧
    ((apply_anonymous_routing_caller_G
        { nodes := [0], edges := [], nodeAttrs := [], edgeAttrs := [] } (1/2) [] []).nodes =
      ({ nodes := [0], edges := [], nodeAttrs := [], edgeAttrs := [] } : Graph).nodes ∧
     (apply_anonymous_routing_caller_G
        { nodes := [0], edges := [], nodeAttrs := [], edgeAttrs := [] } (1/2) [] []).edges =
      ({ nodes := [0], edges := [], nodeAttrs := [], edgeAttrs := [] } : Graph).edges) :=
  ⟨by norm_num, by norm_num,
    C6_no_mutation { nodes := [0], edges := [], nodeAttrs := [], edgeAttrs := [] }
      (1/2) [] [] (by norm_num) (by norm_num)⟩

/-- C7 counterexample: `mark_anonymous_routes` copies `G` together with
its attribute maps, so a graph whose node already carries
`hidden = True` keeps that mark even when the node is not listed: with
`hn = he = []` (vacuously nodes/edges of `G`), node `0` still carries
`hidden = True` in the marked graph although it is outside the lists. -/
theorem C7_counterexample :
    mark_anonymous_routes (⟨[0], [], [(0, true)], []⟩ : Graph) [] [] =
      .ok (⟨[0], [], [(0, true)], []⟩ : Graph) ∧
    nodeHidden (⟨[0], [], [(0, true)], []⟩ : Graph) 0 ∧
    (0 : ℕ) ∉ ([] : List ℕ) := by
  refine ⟨?_, ?_, ?_⟩ <;> decide

/-- C7 (amended): for every graph `G` none of whose attribute entries is
a `hidden = True` mark, and lists `hn` of nodes of `G` and `he` of edges
of `G`, `mark_anonymous_routes` succeeds and returns a graph with the
same node and edge lists in which exactly the listed nodes, and exactly
the listed undirected edges, carry `hidden = True`. -/
theorem C7_marking (G : Graph) (hn : List ℕ) (he : List Edge)
    (hhn : ∀ n ∈ hn, n ∈ G.nodes) (hhe : ∀ e ∈ he, edgeIn e G.edges)
    (hcn : ∀ p ∈ G.nodeAttrs, p.2 = false) (hce : ∀ p ∈ G.edgeAttrs, p.2 = false) :
    ∃ Gm, mark_anonymous_routes G hn he = .ok Gm ∧
      Gm.nodes = G.nodes ∧ Gm.edges = G.edges ∧
      (∀ n ∈ hn, nodeHidden Gm n) ∧ (∀ e ∈ he, edgeHidden Gm e) ∧
      (∀ n, nodeHidden Gm n → n ∈ hn) ∧
      (∀ e, edgeHidden Gm e → ∃ f ∈ he, ekey f = ekey e) := by
  obtain ⟨Gm, hmk, hnodes, hedges, hlkN, hlkE⟩ := mark_anonymous_routes_ok G hn he hhn hhe
  refine ⟨Gm, hmk, hnodes, hedges, ?_, ?_, ?_, ?_⟩
  · intro x hx
    unfold nodeHidden
    rw [hlkN x, if_pos hx]
  · intro e heMem
    unfold edgeHidden
    rw [hlkE (ekey e), if_pos ⟨e, heMem, rfl⟩]
  · intro x hx
    unfold nodeHidden at hx
    rw [hlkN x] at hx
    by_cases hmem : x ∈ hn
    · exact hmem
    · rw [if_neg hmem] at hx
      have hin := lookupA_eq_some hx
      have hfalse := hcn _ hin
      simp at hfalse
  · intro e heH
    unfold edgeHidden at heH
    rw [hlkE (ekey e)] at heH
    by_cases hmem : ∃ f ∈ he, ekey f = ekey e
    · exact hmem
    · rw [if_neg hmem] at heH
      have hin := lookupA_eq_some heH
      have hfalse := hce _ hin
      simp at hfalse

/-- Witness for the amended C7: two nodes, one edge, node `0` and the
reversed orientation `(1, 0)` of the edge `(0, 1)` are marked. -/
theorem C7_marking_witness :
    (∀ n ∈ [0], n ∈ (⟨[0, 1], [(0, 1)], [], []⟩ : Graph).nodes) ∧
    (∀ e ∈ [(1, 0)], edgeIn e (⟨[0, 1], [(0, 1)], [], []⟩ : Graph).edges) ∧
    ∃ Gm, mark_anonymous_routes (⟨[0, 1], [(0, 1)], [], []⟩ : Graph) [0] [(1, 0)] = .ok Gm ∧
      Gm.nodes = (⟨[0, 1], [(0, 1)], [], []⟩ : Graph).nodes ∧
      Gm.edges = (⟨[0, 1], [(0, 1)], [], []⟩ : Graph).edges ∧
      (∀ n ∈ [0], nodeHidden Gm n) ∧ (∀ e ∈ [(1, 0)], edgeHidden Gm e) ∧
      (∀ n, nodeHidden Gm n → n ∈ [0]) ∧
      (∀ e, edgeHidden Gm e → ∃ f ∈ [(1, 0)], ekey f = ekey e) :=
  ⟨by decide, by decide,
    C7_marking (⟨[0, 1], [(0, 1)], [], []⟩ : Graph) [0] [(1, 0)]
      (by decide) (by decide) (by decide) (by decide)⟩

/-- C8: if the node list passed to `mark_anonymous_routes` names a node
absent from `G`, or the edge list names an edge absent from `G` (in
either orientation), the call fails with `KeyError` (`Err.notFound`)
rather than returning a marked graph. -/
theorem C8_missing_reference_fails (G : Graph) (hn : List ℕ) (he : List Edge)
    (h : (∃ n ∈ hn, n ∉ G.nodes) ∨ (∃ e ∈ he, ¬ edgeIn e G.edges)) :
    mark_anonymous_routes G hn he = .error .notFound :=
  mark_anonymous_routes_error G hn he h

/-- Witness for C8: marking node `5` in the empty graph fails. -/
theorem C8_missing_reference_fails_witness :
    ((∃ n ∈ [5], n ∉ (⟨[], [], [], []⟩ : Graph).nodes) ∨
      (∃ e ∈ ([] : List Edge), ¬ edgeIn e (⟨[], [], [], []⟩ : Graph).edges)) ∧
    mark_anonymous_routes (⟨[], [], [], []⟩ : Graph) [5] [] = .error .notFound :=
  ⟨Or.inl (by decide),
    C8_missing_reference_fails (⟨[], [], [], []⟩ : Graph) [5] [] (Or.inl (by decide))⟩

/-- C9: with `hideRatio = 1` the node sample has size `|V|`, so (for a
well-formed graph and samples as `random.sample` returns them)
`hiddenNodes` is the whole node set, and the anonymous graph has zero
nodes and zero edges: removing every node already removed every incident
edge, and the subsequent `remove_edges_from` pass is a silent no-op on
the already-absent edges. -/
theorem C9_ratio_one (G : Graph) (ns : List ℕ) (es : List Edge) (hWF : WF G)
    (hns : isSample ns G.nodes G.nodes.length) (hes : isSample es G.edges G.edges.length) :
    ∃ Ga, apply_anonymous_routing G 1 ns es = .ok (Ga, ns, es) ∧
      (∀ x, x ∈ ns ↔ x ∈ G.nodes) ∧ Ga.nodes = [] ∧ Ga.edges = [] := by
  have h1 := pyInt_ratio_bounds 1 G.nodes.length (by norm_num) (le_refl 1)
  have h2 := pyInt_ratio_bounds 1 G.edges.length (by norm_num) (le_refl 1)
  have hmem : ∀ x, x ∈ ns ↔ x ∈ G.nodes := isSample_full hWF.1 hns
  refine ⟨_, apply_anonymous_routing_eq_ok G 1 ns es h1 h2, hmem, ?_, ?_⟩
  · rw [nodes_remove_edges_from, List.eq_nil_iff_forall_not_mem]
    intro x hx
    rw [mem_nodes_remove_nodes_from] at hx
    exact hx.2 ((hmem x).mpr hx.1)
  · rw [List.eq_nil_iff_forall_not_mem]
    intro f hf
    rw [mem_edges_remove_edges_from, mem_edges_remove_nodes_from] at hf
    obtain ⟨⟨hfG, hf1, _⟩, _⟩ := hf
    exact hf1 ((hmem f.1).mpr (hWF.2 f hfG).1)

/-- Witness for C9: two nodes, one edge, full samples. -/
theorem C9_ratio_one_witness :
    WF (⟨[0, 1], [(0, 1)], [], []⟩ : Graph) ∧
    isSample [1, 0] (⟨[0, 1], [(0, 1)], [], []⟩ : Graph).nodes
      (⟨[0, 1], [(0, 1)], [], []⟩ : Graph).nodes.length ∧
    isSample [(0, 1)] (⟨[0, 1], [(0, 1)], [], []⟩ : Graph).edges
      (⟨[0, 1], [(0, 1)], [], []⟩ : Graph).edges.length ∧
    ∃ Ga, apply_anonymous_routing (⟨[0, 1], [(0, 1)], [], []⟩ : Graph) 1 [1, 0] [(0, 1)] =
        .ok (Ga, [1, 0], [(0, 1)]) ∧
      (∀ x, x ∈ [1, 0] ↔ x ∈ (⟨[0, 1], [(0, 1)], [], []⟩ : Graph).nodes) ∧
      Ga.nodes = [] ∧ Ga.edges = [] := by
  refine ⟨by decide, by decide, by decide, ?_⟩
  exact C9_ratio_one (⟨[0, 1], [(0, 1)], [], []⟩ : Graph) [1, 0] [(0, 1)]
    (by decide) (by decide) (by decide)

/-- C10: restoring right after concealing recovers exactly the original
node set, and every edge of the restored graph is an edge of the
original graph (restoration introduces nothing new, and always recovers
the full node set). -/
theorem C10_restore_node_set_edge_subset (G : Graph) (r : ℚ) (ns : List ℕ) (es : List Edge)
    (hWF : WF G) (hr0 : 0 ≤ r) (hr1 : r ≤ 1)
    (hns : isSample ns G.nodes (pyInt (r * G.nodes.length)).toNat)
    (hes : isSample es G.edges (pyInt (r * G.edges.length)).toNat) :
    ∃ Ga, apply_anonymous_routing G r ns es = .ok (Ga, ns, es) ∧
      (∀ x, x ∈ (restore_topology Ga ns es).nodes ↔ x ∈ G.nodes) ∧
      (∀ f ∈ (restore_topology Ga ns es).edges, f ∈ G.edges) := by
  have h1 := pyInt_ratio_bounds r G.nodes.length hr0 hr1
  have h2 := pyInt_ratio_bounds r G.edges.length hr0 hr1
  refine ⟨_, apply_anonymous_routing_eq_ok G r ns es h1 h2, ?_, ?_⟩
  · exact restore_after_apply_nodes G ns es hWF hns.2.2 hes.2.2
  · exact restore_after_apply_edges_sub G ns es hes.2.2

/-- Witness for C10: path graph on `{0, 1}`, `hideRatio = 1/2`, node
sample `[0]`, edge sample `[]`. -/
theorem C10_restore_node_set_edge_subset_witness :
    WF (⟨[0, 1], [(0, 1)], [], []⟩ : Graph) ∧ (0 : ℚ) ≤ 1/2 ∧ (1/2 : ℚ) ≤ 1 ∧
    isSample [0] (⟨[0, 1], [(0, 1)], [], []⟩ : Graph).nodes
      (pyInt ((1/2 : ℚ) * (⟨[0, 1], [(0, 1)], [], []⟩ : Graph).nodes.length)).toNat ∧
    isSample [] (⟨[0, 1], [(0, 1)], [], []⟩ : Graph).edges
      (pyInt ((1/2 : ℚ) * (⟨[0, 1], [(0, 1)], [], []⟩ : Graph).edges.length)).toNat ∧
    ∃ Ga, apply_anonymous_routing (⟨[0, 1], [(0, 1)], [], []⟩ : Graph) (1/2) [0] [] =
        .ok (Ga, [0], []) ∧
      (∀ x, x ∈ (restore_topology Ga [0] []).nodes ↔
        x ∈ (⟨[0, 1], [(0, 1)], [], []⟩ : Graph).nodes) ∧
      (∀ f ∈ (restore_topology Ga [0] []).edges, f ∈ (⟨[0, 1], [(0, 1)], [], []⟩ : Graph).edges) :=
  ⟨by decide, by norm_num, by norm_num, by norm_num [isSample, pyInt],
    by norm_num [isSample, pyInt],
    C10_restore_node_set_edge_subset (⟨[0, 1], [(0, 1)], [], []⟩ : Graph) (1/2) [0] []
      (by decide) (by norm_num) (by norm_num)
      (by norm_num [isSample, pyInt]) (by norm_num [isSample, pyInt])⟩

/-- C1 counterexample: the restoration round-trip fails on the code. On
the path graph `0 - 1` with `hideRatio = 1/2`, the node sample is `[0]`
(size `int(0.5*2) = 1`) and the edge sample is empty (size
`int(0.5*1) = 0`); removing node `0` also removes the edge `(0,1)`, which
is in neither hidden list, so the restored graph has node set `{0, 1}`
but no edges: its edge set differs from the original's. -/
theorem C1_counterexample :
    ¬ (∀ (G : Graph) (r : ℚ) (ns : List ℕ) (es : List Edge),
        0 ≤ r → r ≤ 1 →
        isSample ns G.nodes (pyInt (r * G.nodes.length)).toNat →
        isSample es G.edges (pyInt (r * G.edges.length)).toNat →
        ∀ Ga hn he, apply_anonymous_routing G r ns es = .ok (Ga, hn, he) →
          (∀ x, x ∈ (restore_topology Ga hn he).nodes ↔ x ∈ G.nodes) ∧
          (∀ f, edgeIn f (restore_topology Ga hn he).edges ↔ edgeIn f G.edges)) := by
  intro hclaim
  have happly : apply_anonymous_routing (⟨[0, 1], [(0, 1)], [], []⟩ : Graph) (1/2) [0] [] =
      .ok ((⟨[1], [], [], []⟩ : Graph), [0], []) := by
    exact apply_anonymous_routing_eq_ok (⟨[0, 1], [(0, 1)], [], []⟩ : Graph) (1/2) [0] []
      (by norm_num [pyInt]) (by norm_num [pyInt])
  have h2 := hclaim (⟨[0, 1], [(0, 1)], [], []⟩ : Graph) (1/2) [0] []
    (by norm_num) (by norm_num)
    (by norm_num [isSample, pyInt]) (by norm_num [isSample, pyInt])
    (⟨[1], [], [], []⟩ : Graph) [0] [] happly
  have h3 := (h2.2 (0, 1)).mpr (by decide)
  exact absurd h3 (by decide)

/-- C1 (amended): restoration after concealment recovers the node set
exactly, and its edge set is, as a set of undirected edges, exactly the
union of the anonymous graph's edges with the sampled hidden edges — a
subset of the original edge set that omits every original edge that was
lost to node removal without being sampled as a hidden edge. In the
concrete 20-node / 30-edge / `hideRatio = 0.3` scenario the restored
graph therefore has exactly 20 nodes but only at most 30 edges. -/
theorem C1_restore_round_trip_amended (G : Graph) (r : ℚ) (ns : List ℕ) (es : List Edge)
    (hWF : WF G) (hr0 : 0 ≤ r) (hr1 : r ≤ 1)
    (hns : isSample ns G.nodes (pyInt (r * G.nodes.length)).toNat)
    (hes : isSample es G.edges (pyInt (r * G.edges.length)).toNat) :
    ∃ Ga, apply_anonymous_routing G r ns es = .ok (Ga, ns, es) ∧
      (∀ x, x ∈ (restore_topology Ga ns es).nodes ↔ x ∈ G.nodes) ∧
      (∀ f, edgeIn f (restore_topology Ga ns es).edges ↔
        edgeIn f Ga.edges ∨ edgeIn f es) ∧
      (∀ f ∈ (restore_topology Ga ns es).edges, f ∈ G.edges) := by
  have h1 := pyInt_ratio_bounds r G.nodes.length hr0 hr1
  have h2 := pyInt_ratio_bounds r G.edges.length hr0 hr1
  refine ⟨_, apply_anonymous_routing_eq_ok G r ns es h1 h2, ?_, ?_, ?_⟩
  · exact restore_after_apply_nodes G ns es hWF hns.2.2 hes.2.2
  · exact edgeIn_restore_topology _ ns es
  · exact restore_after_apply_edges_sub G ns es hes.2.2

/-- Witness for the amended C1: triangle graph on `{0, 1, 2}`,
`hideRatio = 1/3`, node sample `[2]`, edge sample `[(0, 1)]`. -/
theorem C1_restore_round_trip_amended_witness :
    WF (⟨[0, 1, 2], [(0, 1), (0, 2), (1, 2)], [], []⟩ : Graph) ∧
    (0 : ℚ) ≤ 1/3 ∧ (1/3 : ℚ) ≤ 1 ∧
    isSample [2] (⟨[0, 1, 2], [(0, 1), (0, 2), (1, 2)], [], []⟩ : Graph).nodes
      (pyInt ((1/3 : ℚ) *
        (⟨[0, 1, 2], [(0, 1), (0, 2), (1, 2)], [], []⟩ : Graph).nodes.length)).toNat ∧
    isSample [(0, 1)] (⟨[0, 1, 2], [(0, 1), (0, 2), (1, 2)], [], []⟩ : Graph).edges
      (pyInt ((1/3 : ℚ) *
        (⟨[0, 1, 2], [(0, 1), (0, 2), (1, 2)], [], []⟩ : Graph).edges.length)).toNat ∧
    ∃ Ga, apply_anonymous_routing (⟨[0, 1, 2], [(0, 1), (0, 2), (1, 2)], [], []⟩ : Graph)
        (1/3) [2] [(0, 1)] = .ok (Ga, [2], [(0, 1)]) ∧
      (∀ x, x ∈ (restore_topology Ga [2] [(0, 1)]).nodes ↔
        x ∈ (⟨[0, 1, 2], [(0, 1), (0, 2), (1, 2)], [], []⟩ : Graph).nodes) ∧
      (∀ f, edgeIn f (restore_topology Ga [2] [(0, 1)]).edges ↔
        edgeIn f Ga.edges ∨ edgeIn f [(0, 1)]) ∧
      (∀ f ∈ (restore_topology Ga [2] [(0, 1)]).edges,
        f ∈ (⟨[0, 1, 2], [(0, 1), (0, 2), (1, 2)], [], []⟩ : Graph).edges) :=
  ⟨by decide, by norm_num, by norm_num, by norm_num [isSample, pyInt],
    by norm_num [isSample, pyInt],
    C1_restore_round_trip_amended (⟨[0, 1, 2], [(0, 1), (0, 2), (1, 2)], [], []⟩ : Graph)
      (1/3) [2] [(0, 1)] (by decide) (by norm_num) (by norm_num)
      (by norm_num [isSample, pyInt]) (by norm_num [isSample, pyInt])⟩
